import Mathlib

/-!
Verification of the pairwise-angle program (`src/ex6.cpp`).

The program reads whitespace-separated doubles pairwise into 2D vectors,
enumerates all unordered pairs of distinct positions, and prints the pairs
sorted by the angle between the two vectors.

Modelling choices:
* `double` values are modelled as real numbers `ℝ`; `dvec2` (a struct
  inheriting from `std::pair<double, double>`) is `ℝ × ℝ`.
* An input stream is modelled as the list of numeric tokens the extraction
  operator `std::istream_iterator<double>` successfully yields, in order.
* A fallible operation returns `Except String`; the C++ code throws
  `std::runtime_error` with the same message string, which aborts the run
  (non-zero exit, no partial output).
* The file system seen by the driver is a partial map from file names to
  token streams; a name mapped to `none` is a file that cannot be opened.
* `std::sort` with the strict comparator `theta x < theta y` is modelled by
  `List.mergeSort` with the reflexive closure `theta x ≤ theta y` of that
  comparator: both produce a permutation of the input whose adjacent
  elements are non-decreasing under `theta`, which is all the code relies on
  (`std::sort` leaves the choice among tied permutations unspecified).
-/

namespace Ex6

/-- A 2D vector of doubles (`struct dvec2 : public pair<double, double>`),
modelled as a pair of reals.  Equality is component-wise, as defaulted in
the source. -/
abbrev dvec2 : Type := ℝ × ℝ

/-- `dot(a, b)`, the dot product of `a` and `b` (ex6.cpp line 30). -/
def dot (a b : dvec2) : ℝ :=
  a.1 * b.1 + a.2 * b.2

/-- `dvec2::norm()`, the euclidean 2-norm, computed in the source as
`sqrt(dot(*this, *this))` (ex6.cpp line 27). -/
noncomputable def norm (v : dvec2) : ℝ :=
  Real.sqrt (dot v v)

/-- `theta(a, b)`, the angle between `a` and `b`:
`acos(dot(a, b) / (a.norm() * b.norm()))` (ex6.cpp line 36). -/
noncomputable def theta (a b : dvec2) : ℝ :=
  Real.arccos (dot a b / (norm a * norm b))

/-- `ingest_dvecs` (ex6.cpp line 62): consume the token stream two tokens at
a time, forming one vector from each (x, y) pair; a trailing unpaired token
raises `runtime_error("mismatched vector elements")`. -/
def ingest_dvecs : List ℝ → Except String (List dvec2)
  | [] => .ok []
  | [_] => .error "mismatched vector elements"
  | x :: y :: rest => (ingest_dvecs rest).map (fun out => (x, y) :: out)

/-- `pairwise_elts` (ex6.cpp line 79): all pairs `(*it, *it2)` with `it2`
ranging over the positions strictly after `it`. -/
def pairwise_elts : List dvec2 → List (dvec2 × dvec2)
  | [] => []
  | v :: rest => (rest.map fun w => (v, w)) ++ pairwise_elts rest

/-- `theta_sort` (ex6.cpp line 94): the pairwise elements sorted by angle
ascending (`std::sort` with comparator `theta x < theta y`; see the file
header for why this is modelled with the non-strict comparator). -/
noncomputable def theta_sort (vecs : List dvec2) : List (dvec2 × dvec2) :=
  (pairwise_elts vecs).mergeSort fun p q => decide (theta p.1 p.2 ≤ theta q.1 q.2)

/-- `DEFAULT_FNAME` (ex6.cpp line 104). -/
def DEFAULT_FNAME : String := "test.txt"

/-- The file-name selection of `main` (ex6.cpp lines 108-111): exactly one
command-line argument (`argc == 2`) selects that argument, any other
argument count falls back to `DEFAULT_FNAME`. -/
def chooseFname (args : List String) : String :=
  match args with
  | [a] => a
  | _ => DEFAULT_FNAME

/-- The driver `main` (ex6.cpp line 106) up to its printed content: open the
chosen file (failure throws `runtime_error("no input file")`), ingest it,
and angle-sort the result.  `fs` is the file system, `args` the
command-line arguments after the program name. -/
noncomputable def runMain (fs : String → Option (List ℝ)) (args : List String) :
    Except String (List (dvec2 × dvec2)) :=
  match fs (chooseFname args) with
  | none => .error "no input file"
  | some tokens => (ingest_dvecs tokens).map theta_sort

/-- The index pairs (i, j) with i < j < n, in lexicographic order; the
reference enumeration order for `pairwise_elts`. -/
def lexPairs : ℕ → List (ℕ × ℕ)
  | 0 => []
  | n + 1 =>
      ((List.range n).map fun k => (0, k + 1)) ++
        ((lexPairs n).map fun p => (p.1 + 1, p.2 + 1))

/-! ### Helper lemmas -/

lemma map_eq_map_range {α β : Type} (d : α) (f : α → β) (l : List α) :
    l.map f = (List.range l.length).map fun i => f (l.getD i d) := by
  apply List.ext_getElem
  · simp
  · intro i h1 h2
    have hi : i < l.length := by simpa using h1
    simp [List.getD_eq_getElem?_getD, List.getElem?_eq_getElem hi]

lemma lexPairs_length (n : ℕ) : (lexPairs n).length = ∑ i ∈ Finset.range n, i := by
  induction n with
  | zero => simp [lexPairs]
  | succ m ih =>
      simp [lexPairs, ih, Finset.sum_range_succ, Nat.add_comm]

lemma pairwise_elts_eq (vecs : List dvec2) :
    pairwise_elts vecs =
      (lexPairs vecs.length).map fun q => (vecs.getD q.1 (0, 0), vecs.getD q.2 (0, 0)) := by
  induction vecs with
  | nil => rfl
  | cons v rest ih =>
      have hA : (rest.map fun w => (v, w)) =
          ((List.range rest.length).map fun k => ((0 : ℕ), k + 1)).map
            fun q => ((v :: rest).getD q.1 (0, 0), (v :: rest).getD q.2 (0, 0)) := by
        rw [List.map_map, map_eq_map_range ((0 : ℝ), (0 : ℝ)) (fun w => (v, w)) rest]
        apply List.map_congr_left
        intro i _
        simp [Function.comp]
      have hB : pairwise_elts rest =
          ((lexPairs rest.length).map fun p => (p.1 + 1, p.2 + 1)).map
            fun q => ((v :: rest).getD q.1 (0, 0), (v :: rest).getD q.2 (0, 0)) := by
        rw [List.map_map, ih]
        apply List.map_congr_left
        intro p _
        simp [Function.comp]
      calc pairwise_elts (v :: rest)
          = (rest.map fun w => (v, w)) ++ pairwise_elts rest := rfl
        _ = _ := by rw [hA, hB, ← List.map_append]; rfl

lemma lexPairs_mem : ∀ (n : ℕ) (p : ℕ × ℕ), p ∈ lexPairs n ↔ p.1 < p.2 ∧ p.2 < n
  | 0, p => by simp [lexPairs]
  | n + 1, p => by
      obtain ⟨i, j⟩ := p
      simp only [lexPairs, List.mem_append, List.mem_map, List.mem_range,
        Prod.mk.injEq]
      constructor
      · rintro (⟨k, hk, rfl, rfl⟩ | ⟨⟨a, b⟩, hq, rfl, rfl⟩)
        · omega
        · have := (lexPairs_mem n (a, b)).1 hq
          simp only at this
          omega
      · rintro ⟨hij, hjn⟩
        match i, hij with
        | 0, _ => exact Or.inl ⟨j - 1, by omega, rfl, by omega⟩
        | a + 1, _ =>
            exact Or.inr ⟨(a, j - 1),
              (lexPairs_mem n (a, j - 1)).2 (by constructor <;> omega),
              rfl, by omega⟩

lemma lexPairs_nodup : ∀ n : ℕ, (lexPairs n).Nodup
  | 0 => by simp [lexPairs]
  | n + 1 => by
      simp only [lexPairs]
      apply List.Nodup.append
      · exact (List.nodup_range n).map (by intro a b h; simpa using h)
      · exact (lexPairs_nodup n).map (by intro a b h; simp at h; ext <;> omega)
      · intro x hx hx2
        obtain ⟨k, _, rfl⟩ := List.mem_map.1 hx
        obtain ⟨q, _, hq⟩ := List.mem_map.1 hx2
        simp at hq

lemma lexPairs_pairwise (n : ℕ) :
    (lexPairs n).Pairwise fun q r => q.1 < r.1 ∨ (q.1 = r.1 ∧ q.2 < r.2) := by
  induction n with
  | zero => simp [lexPairs]
  | succ m ih =>
      simp only [lexPairs]
      apply List.pairwise_append.2
      refine ⟨?_, ?_, ?_⟩
      · rw [List.pairwise_map]
        exact (List.pairwise_lt_range m).imp (by intro a b h; right; omega)
      · rw [List.pairwise_map]
        exact ih.imp (by intro a b h; omega)
      · intro x hx y hy
        obtain ⟨k, _, rfl⟩ := List.mem_map.1 hx
        obtain ⟨q, _, rfl⟩ := List.mem_map.1 hy
        left
        omega

/-! ### Claim theorems -/

/-- C1.  Ingestion round-trip: a stream of 2N tokens laid out as N
consecutive (x, y) pairs ingests successfully to exactly those N vectors in
order (the k-th vector is built from tokens 2k and 2k+1); in particular the
empty stream yields the empty sequence, not an error. -/
theorem ingest_dvecs_roundtrip (vs : List dvec2) :
    ingest_dvecs (vs.flatMap fun v => [v.1, v.2]) = Except.ok vs := by
  induction vs with
  | nil => rfl
  | cons v t ih =>
      have h2 : (v :: t).flatMap (fun w => [w.1, w.2]) =
          v.1 :: v.2 :: t.flatMap fun w => [w.1, w.2] := rfl
      rw [show (fun v : dvec2 => [v.1, v.2]) = fun w : dvec2 => [w.1, w.2] from rfl,
        h2]
      show (ingest_dvecs (t.flatMap fun w => [w.1, w.2])).map
          (fun out => (v.1, v.2) :: out) = Except.ok (v :: t)
      rw [show (fun w : dvec2 => [w.1, w.2]) = fun v : dvec2 => [v.1, v.2] from rfl,
        ih]
      rfl

/-- C4.  A token stream of odd length makes `ingest_dvecs` fail with the
`MalformedInput` error message "mismatched vector elements"; the result is
an error value, so every vector ingested before the failure is discarded
(there is no partial output). -/
theorem ingest_dvecs_odd_fails : ∀ ts : List ℝ, ts.length % 2 = 1 →
    ingest_dvecs ts = Except.error "mismatched vector elements"
  | [], h => by simp at h
  | [_], _ => rfl
  | x :: y :: rest, h => by
      have hr : rest.length % 2 = 1 := by
        simp only [List.length_cons] at h
        omega
      rw [ingest_dvecs, ingest_dvecs_odd_fails rest hr]
      rfl

/-- Witness for C4 at the spec's own example stream "1 1\n1 2\n1"
(five tokens). -/
theorem ingest_dvecs_odd_fails_witness :
    ([1, 1, 1, 2, 1] : List ℝ).length % 2 = 1 ∧
      ingest_dvecs [1, 1, 1, 2, 1] = Except.error "mismatched vector elements" :=
  ⟨rfl, ingest_dvecs_odd_fails [1, 1, 1, 2, 1] rfl⟩

/-- C5.  `theta a b` is `arccos` of the dot product divided by the product
of the norms, with `dot (a, b) = a.x * b.x + a.y * b.y` and
`norm v = sqrt (v.x ^ 2 + v.y ^ 2)`. -/
theorem theta_formula (a b : dvec2) :
    theta a b =
      Real.arccos ((a.1 * b.1 + a.2 * b.2) /
        (Real.sqrt (a.1 ^ 2 + a.2 ^ 2) * Real.sqrt (b.1 ^ 2 + b.2 ^ 2))) := by
  simp only [theta, norm, dot]
  ring_nf

/-- C10.  The angle is symmetric: `theta a b = theta b a`, since the dot
product is commutative and the norm product is symmetric. -/
theorem theta_comm (a b : dvec2) : theta a b = theta b a := by
  simp only [theta, dot]
  rw [mul_comm (norm a) (norm b), mul_comm a.1 b.1, mul_comm a.2 b.2]

/-- C9.  With more than one command-line argument the program keeps the
default file name `test.txt` (it only checks `argc == 2`), ignoring all the
arguments including the first. -/
theorem chooseFname_extra_args (args : List String) (h : 2 ≤ args.length) :
    chooseFname args = DEFAULT_FNAME := by
  match args with
  | [] => simp at h
  | [a] => simp at h
  | a :: b :: rest => rfl

/-- Witness for C9 at a concrete two-argument command line. -/
theorem chooseFname_extra_args_witness :
    2 ≤ (["a.txt", "b.txt"] : List String).length ∧
      chooseFname ["a.txt", "b.txt"] = DEFAULT_FNAME :=
  ⟨by decide, chooseFname_extra_args ["a.txt", "b.txt"] (by decide)⟩

/-- C8.  Driver file handling: no argument selects the default name
`test.txt`, one argument selects that argument; when the chosen file cannot
be opened the run ends in the fatal error "no input file" (modelled by the
`Except.error` result: non-zero exit, no output produced). -/
theorem runMain_file_handling (fs : String → Option (List ℝ))
    (args : List String) (f : String) (h : fs (chooseFname args) = none) :
    chooseFname [] = DEFAULT_FNAME ∧ chooseFname [f] = f ∧
      runMain fs args = Except.error "no input file" := by
  refine ⟨rfl, rfl, ?_⟩
  unfold runMain
  rw [h]

/-- Witness for C8: an empty file system, no argument. -/
theorem runMain_file_handling_witness :
    (fun _ : String => (none : Option (List ℝ))) (chooseFname []) = none ∧
      (chooseFname [] = DEFAULT_FNAME ∧ chooseFname ["in.txt"] = "in.txt" ∧
        runMain (fun _ => none) [] = Except.error "no input file") :=
  ⟨rfl, runMain_file_handling (fun _ => none) [] "in.txt" rfl⟩

/-- C3.  `pairwise_elts` enumerates exactly the position pairs i < j < n,
for every input length n ≥ 0 (the empty and singleton inputs included):
unconditionally, it has length n(n-1)/2 and equals the lexicographically
ordered index-pair list mapped through the input positions; moreover each
index pair (i, j) with i < j < n occurs exactly once in that reference
list (membership in a duplicate-free list), every member of the reference
list satisfies i < j < n (so no reversed pair (j, i) and no self-pair
occurs), and the reference list is strictly increasing in lexicographic
order. -/
theorem pairwise_elts_enumeration (vecs : List dvec2) (i j : ℕ) (p : ℕ × ℕ) :
    (pairwise_elts vecs).length = vecs.length * (vecs.length - 1) / 2 ∧
      pairwise_elts vecs =
        (lexPairs vecs.length).map
          (fun q => (vecs.getD q.1 (0, 0), vecs.getD q.2 (0, 0))) ∧
      (i < j → j < vecs.length →
        (((i, j) : ℕ × ℕ) ∈ lexPairs vecs.length ∧
          (lexPairs vecs.length).Nodup)) ∧
      (p ∈ lexPairs vecs.length → p.1 < p.2 ∧ p.2 < vecs.length) ∧
      (lexPairs vecs.length).Pairwise
        fun q r => q.1 < r.1 ∨ (q.1 = r.1 ∧ q.2 < r.2) := by
  refine ⟨?_, pairwise_elts_eq vecs,
    fun hij hj => ⟨(lexPairs_mem vecs.length (i, j)).2 ⟨hij, hj⟩, lexPairs_nodup _⟩,
    fun hp => (lexPairs_mem _ p).1 hp, lexPairs_pairwise _⟩
  rw [pairwise_elts_eq vecs, List.length_map, lexPairs_length,
    Finset.sum_range_id]

/-- Witness for C3 on the input [(1,1), (1,2), (1,3)] with i = 0, j = 2 and
reference pair p = (1, 2); the inner implications are discharged at these
concrete indices. -/
theorem pairwise_elts_enumeration_witness :
    (0 : ℕ) < 2 ∧ 2 < ([((1:ℝ), 1), (1, 2), (1, 3)] : List dvec2).length ∧
      ((1, 2) : ℕ × ℕ) ∈
        lexPairs ([((1:ℝ), 1), (1, 2), (1, 3)] : List dvec2).length ∧
      (pairwise_elts [((1:ℝ), 1), (1, 2), (1, 3)]).length =
        ([((1:ℝ), 1), (1, 2), (1, 3)] : List dvec2).length *
          (([((1:ℝ), 1), (1, 2), (1, 3)] : List dvec2).length - 1) / 2 ∧
      pairwise_elts [((1:ℝ), 1), (1, 2), (1, 3)] =
        (lexPairs ([((1:ℝ), 1), (1, 2), (1, 3)] : List dvec2).length).map
          (fun q => (([((1:ℝ), 1), (1, 2), (1, 3)] : List dvec2).getD q.1 (0, 0),
            ([((1:ℝ), 1), (1, 2), (1, 3)] : List dvec2).getD q.2 (0, 0))) ∧
      (((0, 2) : ℕ × ℕ) ∈
          lexPairs ([((1:ℝ), 1), (1, 2), (1, 3)] : List dvec2).length ∧
        (lexPairs ([((1:ℝ), 1), (1, 2), (1, 3)] : List dvec2).length).Nodup) ∧
      (((1, 2) : ℕ × ℕ).1 < ((1, 2) : ℕ × ℕ).2 ∧
        ((1, 2) : ℕ × ℕ).2 < ([((1:ℝ), 1), (1, 2), (1, 3)] : List dvec2).length) ∧
      (lexPairs ([((1:ℝ), 1), (1, 2), (1, 3)] : List dvec2).length).Pairwise
        fun q r => q.1 < r.1 ∨ (q.1 = r.1 ∧ q.2 < r.2) := by
  have T := pairwise_elts_enumeration [((1:ℝ), 1), (1, 2), (1, 3)] 0 2 (1, 2)
  exact ⟨by decide, by decide, by decide, T.1, T.2.1,
    T.2.2.1 (by decide) (by decide), T.2.2.2.1 (by decide), T.2.2.2.2⟩

/-- C7.  Pair enumeration keys on position, not value: two positions i < j
holding equal vector values still contribute their pair to
`pairwise_elts`; only pairing a position with itself is excluded (no index
pair (k, k) is ever enumerated). -/
theorem pairwise_elts_positional (vecs : List dvec2) (i j k : ℕ)
    (hij : i < j) (hj : j < vecs.length)
    (_hval : vecs.getD i (0, 0) = vecs.getD j (0, 0)) :
    (vecs.getD i (0, 0), vecs.getD j (0, 0)) ∈ pairwise_elts vecs ∧
      ((k, k) : ℕ × ℕ) ∉ lexPairs vecs.length := by
  constructor
  · rw [pairwise_elts_eq vecs]
    exact List.mem_map.2 ⟨(i, j), (lexPairs_mem vecs.length (i, j)).2 ⟨hij, hj⟩, rfl⟩
  · intro hk
    exact lt_irrefl k ((lexPairs_mem _ _).1 hk).1

/-- Witness for C7 on the input [(1,1), (1,1)], whose two positions hold
equal values. -/
theorem pairwise_elts_positional_witness :
    (0 : ℕ) < 1 ∧ 1 < ([((1:ℝ), 1), ((1:ℝ), 1)] : List dvec2).length ∧
      ([((1:ℝ), 1), ((1:ℝ), 1)] : List dvec2).getD 0 (0, 0) =
        ([((1:ℝ), 1), ((1:ℝ), 1)] : List dvec2).getD 1 (0, 0) ∧
      ((([((1:ℝ), 1), ((1:ℝ), 1)] : List dvec2).getD 0 (0, 0),
          ([((1:ℝ), 1), ((1:ℝ), 1)] : List dvec2).getD 1 (0, 0)) ∈
            pairwise_elts [((1:ℝ), 1), ((1:ℝ), 1)] ∧
        ((5, 5) : ℕ × ℕ) ∉
          lexPairs ([((1:ℝ), 1), ((1:ℝ), 1)] : List dvec2).length) :=
  ⟨by decide, by decide, rfl,
    pairwise_elts_positional [((1:ℝ), 1), ((1:ℝ), 1)] 0 1 5
      (by decide) (by decide) rfl⟩

/-- C2.  Angle monotonicity: in the output of `theta_sort`, every adjacent
pair of entries has non-decreasing angle. -/
theorem theta_sort_monotone (vecs : List dvec2) :
    (theta_sort vecs).Chain' fun p q => theta p.1 p.2 ≤ theta q.1 q.2 := by
  apply List.Pairwise.chain'
  unfold theta_sort
  have h : ((pairwise_elts vecs).mergeSort fun p q =>
      decide (theta p.1 p.2 ≤ theta q.1 q.2)).Pairwise
        fun p q => decide (theta p.1 p.2 ≤ theta q.1 q.2) = true := by
    apply List.sorted_mergeSort
    · intro a b c hab hbc
      simp only [decide_eq_true_eq] at hab hbc ⊢
      exact le_trans hab hbc
    · intro a b
      simp only [Bool.or_eq_true, decide_eq_true_eq]
      exact le_total _ _
  exact h.imp fun hab => by simpa using hab

/-- C6.  `theta_sort` permutes `pairwise_elts`: the sorted output contains
exactly the same pairs as the enumeration, as a multiset. -/
theorem theta_sort_perm (vecs : List dvec2) :
    (theta_sort vecs).Perm (pairwise_elts vecs) := by
  unfold theta_sort
  exact List.mergeSort_perm (pairwise_elts vecs) _

end Ex6
